import Mathlib

/-!
Shallow embedding of the account-data generator (src/main.py) and proofs of
the specification claims about it.

Modelling conventions:
- Python strings are modelled as `List Char` (sequences of Unicode code points).
- Randomness is modelled by explicit tapes: `secrets.choice(seq)` becomes
  indexing `seq` at `r % seq.length` for a tape value `r`, `secrets.randbelow n`
  becomes `r % n`, and the day-rejection loop takes a tape `ds : Nat → Nat`
  together with a fuel bound (the Python loop is unbounded; `none` models
  non-termination within the given fuel).
- `random.shuffle` (library code, outside src) is modelled as an explicit
  function argument together with the hypothesis that it permutes its input.
- Python library character predicates (`str.lower`, `str.isalpha`, `\s`,
  `str.strip`) are modelled exactly on the Basic Latin and Latin-1 blocks,
  which covers every character any theorem below touches.
- Machine integers do not occur: all Python ints involved are non-negative
  and unbounded, modelled as `Nat`.
-/

/-- Configuration constant PASSWORD_LENGTH from src/main.py. -/
def PASSWORD_LENGTH : Nat := 12

/-- Configuration constant DOB_YEAR_MIN from src/main.py. -/
def DOB_YEAR_MIN : Nat := 1970

/-- Configuration constant DOB_YEAR_MAX from src/main.py. -/
def DOB_YEAR_MAX : Nat := 2004

/-- The fixed safe-punctuation set SAFE_PUNCT = "!@#$%^&*()-_=+[]...:;,./?"
(the two brace characters are written via their code points 123 and 125). -/
def SAFE_PUNCT : List Char :=
  ['!', '@', '#', '$', '%', '^', '&', '*', '(', ')', '-', '_', '=', '+',
   '[', ']', Char.ofNat 123, Char.ofNat 125, ':', ';', ',', '.', '/', '?']

/-- Python string.ascii_lowercase. -/
def asciiLowercase : List Char := "abcdefghijklmnopqrstuvwxyz".toList

/-- Python string.ascii_uppercase. -/
def asciiUppercase : List Char := "ABCDEFGHIJKLMNOPQRSTUVWXYZ".toList

/-- Python string.digits. -/
def asciiDigits : List Char := "0123456789".toList

/-- PASSWORD_ALPHABET = string.ascii_letters + string.digits + SAFE_PUNCT. -/
def PASSWORD_ALPHABET : List Char :=
  asciiLowercase ++ asciiUppercase ++ asciiDigits ++ SAFE_PUNCT

/-- The fixed first-name list FIRST_NAMES from src/main.py. -/
def FIRST_NAMES : List (List Char) :=
  ["Oliver".toList, "George".toList, "Harry".toList, "Jack".toList, "Noah".toList,
   "Olivia".toList, "Amelia".toList, "Isla".toList, "Ava".toList, "Mia".toList,
   "Liam".toList, "Emma".toList, "Sophia".toList, "Charlotte".toList, "James".toList,
   "Benjamin".toList, "Lucas".toList, "Henry".toList, "Ethan".toList, "Grace".toList]

/-- The fixed last-name list LAST_NAMES from src/main.py. -/
def LAST_NAMES : List (List Char) :=
  ["Smith".toList, "Johnson".toList, "Williams".toList, "Brown".toList, "Jones".toList,
   "Miller".toList, "Davis".toList, "Garcia".toList, "Rodriguez".toList, "Wilson".toList,
   "Taylor".toList, "Thomas".toList, "Moore".toList, "Martin".toList, "Jackson".toList]

/-- The fixed six-item country list ENGLISH_COUNTRIES from src/main.py. -/
def ENGLISH_COUNTRIES : List (List Char) :=
  ["United States".toList, "United Kingdom".toList, "Canada".toList,
   "Australia".toList, "Ireland".toList, "New Zealand".toList]

/-- Model of secrets.choice on a character sequence: the tape value `r`
selects index `r % length`.  The default is never reached for the non-empty
sequences the program uses. -/
def chooseFrom (l : List Char) (r : Nat) : Char := l.getD (r % l.length) (Char.ofNat 0)

/-- Model of secrets.choice on a list of strings (used for the name lists). -/
def chooseFromL (l : List (List Char)) (r : Nat) : List Char := l.getD (r % l.length) []

/-- The decimal digit character for `n < 10`, as produced by Python str() of
a single digit. -/
def digitChar (n : Nat) : Char := Char.ofNat (48 + n)

/-- Structural worker for the decimal representation: the fuel argument only
makes the recursion structural; it never runs out when called with fuel at
least n, because n / 10 ≤ n - 1 whenever 10 ≤ n. -/
def natDigitsF : Nat → Nat → List Char
  | 0, n => [digitChar n]
  | fuel + 1, n =>
    if n < 10 then [digitChar n]
    else natDigitsF fuel (n / 10) ++ [digitChar (n % 10)]

/-- Decimal digit string of a natural number, as produced by Python str(n)
for non-negative n. -/
def natDigits (n : Nat) : List Char := natDigitsF n n

/-- Zero padding to width `w`, as in Python format specifiers 02d / 04d and
zero-filled isoformat fields. -/
def padNum (w n : Nat) : List Char :=
  List.replicate (w - (natDigits n).length) '0' ++ natDigits n

/-- Model of the regex class backslash-s and of the character set stripped by
str.strip: the ASCII whitespace characters.  (Exact on the Basic Latin block;
no theorem below evaluates it outside that block.) -/
def pyIsSpace (c : Char) : Bool :=
  c = ' ' || c = '\t' || c = '\n' || c = '\r' || c = '\x0b' || c = '\x0c'

/-- Model of Python str.strip(): drop leading and trailing whitespace. -/
def pyStrip (s : List Char) : List Char :=
  ((s.dropWhile pyIsSpace).reverse.dropWhile pyIsSpace).reverse

/-- The character class [^@ backslash-s] of EMAIL_REGEX in src/main.py. -/
def emailChar (c : Char) : Bool := !(c = '@') && !(pyIsSpace c)

/-- Backtracking matcher for `A+` followed by a continuation `k`:
accepts `l` iff some non-empty all-`A` prefix of `l` leaves a suffix
accepted by `k`. -/
def matchPlus (A : Char → Bool) (k : List Char → Bool) : List Char → Bool
  | [] => false
  | c :: rest => A c && (k rest || matchPlus A k rest)

/-- Matcher for the final segment [^@ ws]+ at end of string. -/
def matchTail2 (r : List Char) : Bool := matchPlus emailChar List.isEmpty r

/-- Matcher for the literal dot followed by the final segment. -/
def matchTail1 (r : List Char) : Bool :=
  match r with
  | '.' :: r4 => matchTail2 r4
  | _ => false

/-- Matcher for [^@ ws]+ dot [^@ ws]+ at end of string. -/
def matchTail0 (r : List Char) : Bool := matchPlus emailChar matchTail1 r

/-- Matcher for the literal at-sign followed by the domain part. -/
def matchAfterAt (r : List Char) : Bool :=
  match r with
  | '@' :: r2 => matchTail0 r2
  | _ => false

/-- The full EMAIL_REGEX from src/main.py: anchored
[^@ ws]+ at-sign [^@ ws]+ dot [^@ ws]+ . -/
def matchesEmailRegex (s : List Char) : Bool := matchPlus emailChar matchAfterAt s

/-- is_valid_email from src/main.py: strip, then match EMAIL_REGEX. -/
def is_valid_email (email : List Char) : Bool := matchesEmailRegex (pyStrip email)

/-- The language described by the specification's words for the validator:
a decomposition into a non-empty local part, an at-sign, a non-empty middle,
a dot, and a non-empty tail, all of whose letters avoid at-signs and
whitespace. -/
def emailShape (s : List Char) : Prop :=
  ∃ p u v : List Char,
    s = p ++ '@' :: (u ++ '.' :: v) ∧ p ≠ [] ∧ u ≠ [] ∧ v ≠ [] ∧
    (∀ c ∈ p, emailChar c = true) ∧ (∀ c ∈ u, emailChar c = true) ∧
    (∀ c ∈ v, emailChar c = true)

/-- Python leap-year rule (datetime): divisible by 4 and, if divisible by
100, also by 400. -/
def isLeap (y : Nat) : Prop := y % 4 = 0 ∧ (y % 100 ≠ 0 ∨ y % 400 = 0)

instance (y : Nat) : Decidable (isLeap y) := by
  unfold isLeap
  infer_instance

/-- Days in a month, as in Python's datetime module. -/
def daysInMonth (y m : Nat) : Nat :=
  if m = 2 then (if isLeap y then 29 else 28)
  else if m = 4 ∨ m = 6 ∨ m = 9 ∨ m = 11 then 30
  else 31

/-- Validity condition of the Python date(year, month, day) constructor:
MINYEAR 1 ≤ year ≤ MAXYEAR 9999, month in 1..12, day in 1..days-in-month;
outside it the constructor raises ValueError. -/
def pyDateValid (y m d : Nat) : Prop :=
  1 ≤ y ∧ y ≤ 9999 ∧ 1 ≤ m ∧ m ≤ 12 ∧ 1 ≤ d ∧ d ≤ daysInMonth y m

instance (y m d : Nat) : Decidable (pyDateValid y m d) := by
  unfold pyDateValid
  infer_instance

/-- calendar.month_abbr: index 0 is empty, indices 1..12 are the three-letter
English abbreviations. -/
def monthAbbr : List (List Char) :=
  [[], "Jan".toList, "Feb".toList, "Mar".toList, "Apr".toList, "May".toList,
   "Jun".toList, "Jul".toList, "Aug".toList, "Sep".toList, "Oct".toList,
   "Nov".toList, "Dec".toList]

/-- convert_month_number from src/main.py: calendar.month_abbr[month]. -/
def convert_month_number (m : Nat) : List Char := monthAbbr.getD m []

/-- The f-string of generate_valid_date: day 02d, slash, month abbreviation,
slash, year. -/
def formatDate (y m d : Nat) : List Char :=
  padNum 2 d ++ '/' :: (convert_month_number m ++ '/' :: natDigits y)

/-- The day-rejection loop of generate_valid_date: starting at tape index
`k` with `fuel` tries left, draw day = 1 + tape % 31 and accept the first
day for which the date constructor succeeds.  `none` models exceeding the
fuel (the Python loop is unbounded). -/
def findDay (y m : Nat) (ds : Nat → Nat) : Nat → Nat → Option Nat
  | _, 0 => none
  | k, Nat.succ fuel =>
    if pyDateValid y m (1 + ds k % 31) then some (1 + ds k % 31)
    else findDay y m ds (k + 1) fuel

/-- generate_valid_date from src/main.py: year uniform in the configured
range, month uniform in 1..12, then the day-rejection loop, then format. -/
def generate_valid_date (min_year max_year : Nat) (ry rm : Nat)
    (ds : Nat → Nat) (fuel : Nat) : Option (List Char) :=
  let year := min_year + ry % (max_year - min_year + 1)
  let month := 1 + rm % 12
  match findDay year month ds 0 fuel with
  | none => none
  | some day => some (formatDate year month day)

/-- Number of day candidates in 1..31 that form a valid date for the given
year and month. -/
def countValidDays (y m : Nat) : Nat :=
  ((List.range 31).filter (fun i => decide (pyDateValid y m (i + 1)))).length

/-- Model of Python str.lower per character: exact on the Basic Latin and
Latin-1 blocks (A-Z and the Latin-1 capitals map 32 code points up, the
multiplication sign being excluded); identity elsewhere.  No theorem below
evaluates it outside those blocks. -/
def pyLower (c : Char) : Char :=
  if 'A' ≤ c ∧ c ≤ 'Z' then Char.ofNat (c.toNat + 32)
  else if 0xC0 ≤ c.toNat ∧ c.toNat ≤ 0xDE ∧ c.toNat ≠ 0xD7 then Char.ofNat (c.toNat + 32)
  else c

/-- Model of Python str.isalpha per character: exact on the Basic Latin and
Latin-1 blocks (ASCII letters; the feminine and masculine ordinal indicators
and the micro sign; the Latin-1 letters excluding the multiplication and
division signs).  No theorem below evaluates it outside those blocks. -/
def pyIsAlphaChar (c : Char) : Bool :=
  ('A' ≤ c && c ≤ 'Z') || ('a' ≤ c && c ≤ 'z') ||
  c.toNat = 0xAA || c.toNat = 0xB5 || c.toNat = 0xBA ||
  (0xC0 ≤ c.toNat && c.toNat ≤ 0xFF && !(c.toNat = 0xD7) && !(c.toNat = 0xF7))

/-- The allowed set of sanitize_display_name:
string.ascii_lowercase + string.digits + underscore. -/
def allowedChar (c : Char) : Bool :=
  ('a' ≤ c && c ≤ 'z') || ('0' ≤ c && c ≤ '9') || c = '_'

/-- The while-loop of sanitize_display_name, appending one random decimal
digit as long as the length is below 3.  Each pass adds one character, so
the loop body runs at most three times; the fuel argument (called with 3)
makes the recursion structural without changing the result. -/
def padFrom (digs : Nat → Nat) : List Char → Nat → Nat → List Char
  | s, _, 0 => s
  | s, i, Nat.succ fuel =>
    if s.length < 3 then padFrom digs (s ++ [digitChar (digs i % 10)]) (i + 1) fuel
    else s

/-- sanitize_display_name from src/main.py: lower-case, prepend the letter a
when the first character is missing or not alphabetic, replace disallowed
characters by underscores, truncate to 16, pad with random digits to at
least 3. -/
def sanitize_display_name (base : List Char) (digs : Nat → Nat) : List Char :=
  let b1 := base.map pyLower
  let b2 := match b1 with
    | [] => ['a']
    | c :: rest => if pyIsAlphaChar c then c :: rest else 'a' :: c :: rest
  let s := b2.map (fun ch => if allowedChar ch then ch else '_')
  padFrom digs (s.take 16) 0 3

/-- generate_display_name from src/main.py: seed = first + last + a random
integer in 1000..9999 (the tape value sfx models secrets.randbelow 9000),
then sanitize. -/
def generate_display_name (first last : List Char) (sfx : Nat) (digs : Nat → Nat) : List Char :=
  sanitize_display_name (first ++ last ++ natDigits (sfx % 9000 + 1000)) digs

/-- The display-name policy of the specification, the regex
caret a-z then a-z0-9_ two-to-fifteen dollar: first character a lowercase
ASCII letter, every further character lowercase-alphanumeric or underscore,
length 3 to 16. -/
def displayNameOk (l : List Char) : Bool :=
  match l with
  | [] => false
  | c :: t =>
    ('a' ≤ c && c ≤ 'z') && t.all allowedChar && 3 ≤ l.length && l.length ≤ 16

/-- generate_password from src/main.py: clamp the length to a floor of 10,
draw one character from each required class, fill the rest from the union
alphabet, and shuffle.  The shuffle (random.shuffle, library code) is passed
in as a function; theorems assume only that it permutes its input. -/
def generate_password (length : Nat) (r1 r2 r3 r4 : Nat) (fill : Nat → Nat)
    (shuffle : List Char → List Char) : List Char :=
  let len := if length < 10 then 10 else length
  let req := [chooseFrom asciiLowercase r1, chooseFrom asciiUppercase r2,
              chooseFrom asciiDigits r3, chooseFrom SAFE_PUNCT r4]
  let remaining := (List.range (len - 4)).map (fun i => chooseFrom PASSWORD_ALPHABET (fill i))
  shuffle (req ++ remaining)

/-- The dataclass AccountDetails from src/main.py. -/
structure AccountDetails where
  email : List Char
  first_name : List Char
  last_name : List Char
  display_name : List Char
  date_str : List Char
  password : List Char
  country : List Char
  created_at : List Char
deriving DecidableEq

/-- Python's backslash-n-join of a list of lines. -/
def joinLines : List (List Char) → List Char
  | [] => []
  | [l] => l
  | l :: ls => l ++ '\n' :: joinLines ls

/-- AccountDetails.to_text_block from src/main.py: the eight key-value lines
and the 31-dash separator, joined with newlines. -/
def AccountDetails.to_text_block (a : AccountDetails) : List Char :=
  joinLines
    ["Email: ".toList ++ a.email,
     "First name: ".toList ++ a.first_name,
     "Last name: ".toList ++ a.last_name,
     "Create password: ".toList ++ a.password,
     "Add a display name: ".toList ++ a.display_name,
     "Date: ".toList ++ a.date_str,
     "Country: ".toList ++ a.country,
     "Created: ".toList ++ a.created_at,
     List.replicate 31 '-']

/-- append_to_file from src/main.py, with the file contents made explicit:
opening in append mode and writing block + newline appends block and a
newline to the existing contents. -/
def append_to_file (fileContent block : List Char) : List Char :=
  fileContent ++ block ++ ['\n']

/-- Modelled from the spec: created_at is datetime.now().isoformat at second
precision (library code outside src): year padded to 4 digits, then
dash month dash day, the letter T, and colon-separated hour, minute,
second, each padded to 2 digits. -/
def isoTimestamp (y mo d h mi s : Nat) : List Char :=
  padNum 4 y ++ '-' :: (padNum 2 mo ++ '-' :: (padNum 2 d ++ 'T' ::
    (padNum 2 h ++ ':' :: (padNum 2 mi ++ ':' :: padNum 2 s))))

/-- The random tape consumed by one call to generate_account, in the order
the source draws from the random source, plus the shuffle function. -/
structure RandTape where
  nameFirst : Nat
  nameLast : Nat
  sfx : Nat
  digs : Nat → Nat
  ry : Nat
  rm : Nat
  ds : Nat → Nat
  dateFuel : Nat
  pw1 : Nat
  pw2 : Nat
  pw3 : Nat
  pw4 : Nat
  fill : Nat → Nat
  shuffle : List Char → List Char

/-- generate_account from src/main.py: draw names, derive the display name,
generate the date of birth with the default year range and the password with
the default length, stamp the current time, and assemble the record.  The
result is `none` exactly when the day-rejection loop exceeds its fuel. -/
def generate_account (email country : List Char) (t : RandTape)
    (nowY nowMo nowD nowH nowMi nowS : Nat) : Option AccountDetails :=
  let first := chooseFromL FIRST_NAMES t.nameFirst
  let last := chooseFromL LAST_NAMES t.nameLast
  let display := generate_display_name first last t.sfx t.digs
  match generate_valid_date DOB_YEAR_MIN DOB_YEAR_MAX t.ry t.rm t.ds t.dateFuel with
  | none => none
  | some dob =>
    some { email := pyStrip email
           first_name := first
           last_name := last
           display_name := display
           date_str := dob
           password := generate_password PASSWORD_LENGTH t.pw1 t.pw2 t.pw3 t.pw4 t.fill t.shuffle
           country := country
           created_at := isoTimestamp nowY nowMo nowD nowH nowMi nowS }

/-- Prefix-stable splitting of a character list at newlines, the line
structure used to state the shape of the rendered block. -/
def consHead (c : Char) : List (List Char) → List (List Char)
  | [] => [[c]]
  | g :: gs => (c :: g) :: gs

/-- Split a character list at newline characters. -/
def splitOnNl : List Char → List (List Char)
  | [] => [[]]
  | c :: r => if c = '\n' then [] :: splitOnNl r else consHead c (splitOnNl r)

theorem chooseFrom_mem (l : List Char) (r : Nat) (h : l ≠ []) : chooseFrom l r ∈ l := by
  have hl : 0 < l.length := List.length_pos.mpr h
  have hm : r % l.length < l.length := Nat.mod_lt _ hl
  unfold chooseFrom
  rw [List.getD_eq_getElem l _ hm]
  exact List.getElem_mem hm

theorem chooseFromL_mem (l : List (List Char)) (r : Nat) (h : l ≠ []) : chooseFromL l r ∈ l := by
  have hl : 0 < l.length := List.length_pos.mpr h
  have hm : r % l.length < l.length := Nat.mod_lt _ hl
  unfold chooseFromL
  rw [List.getD_eq_getElem l _ hm]
  exact List.getElem_mem hm

theorem matchPlus_iff (A : Char → Bool) (k : List Char → Bool) (l : List Char) :
    matchPlus A k l = true ↔
      ∃ a r, l = a ++ r ∧ a ≠ [] ∧ (∀ c ∈ a, A c = true) ∧ k r = true := by
  induction l with
  | nil =>
    simp only [matchPlus]
    constructor
    · intro h
      exact absurd h (by simp)
    · rintro ⟨a, r, heq, hne, -, -⟩
      exact absurd (List.append_eq_nil.mp heq.symm).1 hne
  | cons c rest ih =>
    simp only [matchPlus, Bool.and_eq_true, Bool.or_eq_true]
    constructor
    · rintro ⟨hA, hk | hm⟩
      · exact ⟨[c], rest, rfl, by simp, by simpa using hA, hk⟩
      · obtain ⟨a, r, heq, hne, hall, hkr⟩ := ih.mp hm
        refine ⟨c :: a, r, by simp [heq], by simp, ?_, hkr⟩
        intro x hx
        rcases List.mem_cons.mp hx with rfl | hx
        · exact hA
        · exact hall x hx
    · rintro ⟨a, r, heq, hne, hall, hkr⟩
      rcases a with _ | ⟨x, a2⟩
      · exact absurd rfl hne
      · rw [List.cons_append] at heq
        injection heq with h1 h2
        subst h1
        refine ⟨hall c (List.mem_cons_self c a2), ?_⟩
        rcases a2 with _ | ⟨y, a3⟩
        · left
          simpa [h2] using hkr
        · right
          refine ih.mpr ⟨y :: a3, r, h2, by simp, ?_, hkr⟩
          intro x hx
          exact hall x (List.mem_cons_of_mem c hx)

theorem matchTail2_iff (r : List Char) :
    matchTail2 r = true ↔ r ≠ [] ∧ ∀ c ∈ r, emailChar c = true := by
  unfold matchTail2
  rw [matchPlus_iff]
  constructor
  · rintro ⟨a, r2, rfl, hne, hall, hkr⟩
    have hr2 : r2 = [] := by simpa using hkr
    subst hr2
    simpa using ⟨hne, hall⟩
  · rintro ⟨hne, hall⟩
    exact ⟨r, [], by simp, hne, hall, by simp⟩

theorem matchTail1_iff (r : List Char) :
    matchTail1 r = true ↔ ∃ v, r = '.' :: v ∧ v ≠ [] ∧ ∀ c ∈ v, emailChar c = true := by
  unfold matchTail1
  split
  next r4 =>
    rw [matchTail2_iff]
    constructor
    · rintro ⟨h1, h2⟩
      exact ⟨r4, rfl, h1, h2⟩
    · rintro ⟨v, hv, h1, h2⟩
      simp only [List.cons.injEq, true_and] at hv
      subst hv
      exact ⟨h1, h2⟩
  next hmiss =>
    constructor
    · intro h
      exact absurd h (by simp)
    · rintro ⟨v, hv, -, -⟩
      subst hv
      exact absurd (hmiss v rfl) not_false

theorem matchAfterAt_iff (r : List Char) :
    matchAfterAt r = true ↔ ∃ r2, r = '@' :: r2 ∧ matchTail0 r2 = true := by
  unfold matchAfterAt
  split
  next r2 =>
    constructor
    · intro h
      exact ⟨r2, rfl, h⟩
    · rintro ⟨r3, hv, h⟩
      simp only [List.cons.injEq, true_and] at hv
      subst hv
      exact h
  next hmiss =>
    constructor
    · intro h
      exact absurd h (by simp)
    · rintro ⟨r2, hv, -⟩
      subst hv
      exact absurd (hmiss r2 rfl) not_false

theorem matchTail0_iff (r : List Char) :
    matchTail0 r = true ↔
      ∃ u v, r = u ++ '.' :: v ∧ u ≠ [] ∧ v ≠ [] ∧
        (∀ c ∈ u, emailChar c = true) ∧ (∀ c ∈ v, emailChar c = true) := by
  unfold matchTail0
  rw [matchPlus_iff]
  constructor
  · rintro ⟨u, r3, rfl, hne, hall, hk⟩
    obtain ⟨v, rfl, hv, hallv⟩ := (matchTail1_iff r3).mp hk
    exact ⟨u, v, rfl, hne, hv, hall, hallv⟩
  · rintro ⟨u, v, rfl, hu, hv, hallu, hallv⟩
    exact ⟨u, '.' :: v, rfl, hu, hallu, (matchTail1_iff _).mpr ⟨v, rfl, hv, hallv⟩⟩

theorem matchesEmailRegex_iff (s : List Char) : matchesEmailRegex s = true ↔ emailShape s := by
  unfold matchesEmailRegex emailShape
  rw [matchPlus_iff]
  constructor
  · rintro ⟨p, r, rfl, hp, hallp, hk⟩
    obtain ⟨r2, rfl, h0⟩ := (matchAfterAt_iff r).mp hk
    obtain ⟨u, v, rfl, hu, hv, hallu, hallv⟩ := (matchTail0_iff r2).mp h0
    exact ⟨p, u, v, rfl, hp, hu, hv, hallp, hallu, hallv⟩
  · rintro ⟨p, u, v, rfl, hp, hu, hv, hallp, hallu, hallv⟩
    refine ⟨p, '@' :: (u ++ '.' :: v), rfl, hp, hallp, ?_⟩
    rw [matchAfterAt_iff]
    exact ⟨u ++ '.' :: v, rfl, (matchTail0_iff _).mpr ⟨u, v, rfl, hu, hv, hallu, hallv⟩⟩

theorem daysInMonth_bounds (y m : Nat) : 28 ≤ daysInMonth y m ∧ daysInMonth y m ≤ 31 := by
  unfold daysInMonth
  split
  · split <;> omega
  · split <;> omega

theorem filter_succ_le_length (n D : Nat) :
    ((List.range n).filter (fun i => decide (i + 1 ≤ D))).length = min n D := by
  induction n with
  | zero => simp
  | succ n ih =>
    rw [List.range_succ, List.filter_append, List.length_append, ih]
    by_cases h : n + 1 ≤ D
    · simp only [List.filter_cons, List.filter_nil, decide_eq_true_eq, if_pos h]
      simp only [List.length_cons, List.length_nil]
      omega
    · simp only [List.filter_cons, List.filter_nil, decide_eq_true_eq, if_neg h]
      simp only [List.length_nil]
      omega

theorem countValidDays_eq (y m : Nat) (hy1 : 1 ≤ y) (hy2 : y ≤ 9999)
    (hm1 : 1 ≤ m) (hm2 : m ≤ 12) : countValidDays y m = daysInMonth y m := by
  unfold countValidDays
  have hcong : ∀ i ∈ List.range 31,
      (decide (pyDateValid y m (i + 1))) = (decide (i + 1 ≤ daysInMonth y m)) := by
    intro i hi
    rw [decide_eq_decide]
    unfold pyDateValid
    omega
  rw [List.filter_congr hcong, filter_succ_le_length]
  have := daysInMonth_bounds y m
  omega

theorem findDay_some (y m : Nat) (ds : Nat → Nat) :
    ∀ fuel k d, findDay y m ds k fuel = some d → pyDateValid y m d ∧ 1 ≤ d ∧ d ≤ 31 := by
  intro fuel
  induction fuel with
  | zero =>
    intro k d h
    exact absurd h (by simp [findDay])
  | succ n ih =>
    intro k d h
    unfold findDay at h
    split at h
    · next hval =>
      obtain rfl : 1 + ds k % 31 = d := by injection h
      have hlt : ds k % 31 < 31 := Nat.mod_lt _ (by omega)
      exact ⟨hval, by omega, by omega⟩
    · exact ih (k + 1) d h

theorem findDay_terminates (y m : Nat) (ds : Nat → Nat) :
    ∀ fuel k, (∃ j, j < fuel ∧ pyDateValid y m (1 + ds (k + j) % 31)) →
      ∃ d, findDay y m ds k fuel = some d := by
  intro fuel
  induction fuel with
  | zero =>
    rintro k ⟨j, hj, -⟩
    omega
  | succ n ih =>
    rintro k ⟨j, hj, hval⟩
    unfold findDay
    by_cases h : pyDateValid y m (1 + ds k % 31)
    · rw [if_pos h]
      exact ⟨_, rfl⟩
    · rw [if_neg h]
      rcases j with _ | j2
      · rw [Nat.add_zero] at hval
        exact absurd hval h
      · refine ih (k + 1) ⟨j2, by omega, ?_⟩
        have hidx : k + 1 + j2 = k + (j2 + 1) := by omega
        rw [hidx]
        exact hval

theorem generate_valid_date_some (min_year max_year ry rm : Nat) (ds : Nat → Nat)
    (fuel : Nat) (s : List Char)
    (h : generate_valid_date min_year max_year ry rm ds fuel = some s) :
    ∃ y m d, s = formatDate y m d ∧ pyDateValid y m d ∧ 1 ≤ d ∧ d ≤ 31 ∧
      y = min_year + ry % (max_year - min_year + 1) ∧ m = 1 + rm % 12 := by
  simp only [generate_valid_date] at h
  split at h
  · exact absurd h (by simp)
  · next day hday =>
    obtain rfl : formatDate _ _ day = s := by injection h
    obtain ⟨hval, hd1, hd31⟩ := findDay_some _ _ ds fuel 0 day hday
    exact ⟨_, _, day, rfl, hval, hd1, hd31, rfl, rfl⟩

theorem natDigitsF_small (fuel n : Nat) (h : n < 10) : natDigitsF fuel n = [digitChar n] := by
  cases fuel with
  | zero => rfl
  | succ f =>
    unfold natDigitsF
    rw [if_pos h]

theorem natDigits_length_le_two (n : Nat) (h : n < 100) : (natDigits n).length ≤ 2 := by
  unfold natDigits
  by_cases h10 : n < 10
  · rw [natDigitsF_small n n h10]
    simp
  · obtain ⟨f, rfl⟩ : ∃ f, n = f + 1 := ⟨n - 1, by omega⟩
    unfold natDigitsF
    rw [if_neg h10, List.length_append]
    rw [natDigitsF_small f ((f + 1) / 10) (by omega)]
    simp

theorem padNum_two_length (d : Nat) (h : d < 100) : (padNum 2 d).length = 2 := by
  unfold padNum
  rw [List.length_append, List.length_replicate]
  have := natDigits_length_le_two d h
  omega

theorem convert_month_number_length (m : Nat) (h1 : 1 ≤ m) (h2 : m ≤ 12) :
    (convert_month_number m).length = 3 := by
  interval_cases m <;> rfl

theorem padFrom_append (digs : Nat → Nat) :
    ∀ n s i, ∃ t, padFrom digs s i n = s ++ t ∧ ∀ c ∈ t, ∃ x, x < 10 ∧ c = digitChar x := by
  intro n
  induction n with
  | zero =>
    intro s i
    exact ⟨[], by simp [padFrom], by simp⟩
  | succ n ih =>
    intro s i
    unfold padFrom
    by_cases h : s.length < 3
    · rw [if_pos h]
      obtain ⟨t, ht, hall⟩ := ih (s ++ [digitChar (digs i % 10)]) (i + 1)
      refine ⟨digitChar (digs i % 10) :: t, ?_, ?_⟩
      · rw [ht, List.append_assoc]
        rfl
      · intro c hc
        rcases List.mem_cons.mp hc with rfl | hc
        · exact ⟨digs i % 10, Nat.mod_lt _ (by omega), rfl⟩
        · exact hall c hc
    · rw [if_neg h]
      exact ⟨[], by simp, by simp⟩

theorem padFrom_length (digs : Nat → Nat) :
    ∀ n s i, (padFrom digs s i n).length =
      if s.length < 3 then min 3 (s.length + n) else s.length := by
  intro n
  induction n with
  | zero =>
    intro s i
    simp only [padFrom]
    split <;> omega
  | succ n ih =>
    intro s i
    unfold padFrom
    by_cases h : s.length < 3
    · simp only [if_pos h]
      rw [ih]
      simp only [List.length_append, List.length_cons, List.length_nil]
      split_ifs <;> omega
    · simp only [if_neg h]

theorem sanitize_display_name_length (base : List Char) (digs : Nat → Nat) :
    3 ≤ (sanitize_display_name base digs).length ∧
      (sanitize_display_name base digs).length ≤ 16 := by
  have key : ∀ b2 : List Char, b2 ≠ [] →
      3 ≤ (padFrom digs ((b2.map (fun ch => if allowedChar ch then ch else '_')).take 16) 0 3).length ∧
      (padFrom digs ((b2.map (fun ch => if allowedChar ch then ch else '_')).take 16) 0 3).length ≤ 16 := by
    intro b2 hb2
    have h1 : 0 < b2.length := List.length_pos.mpr hb2
    rw [padFrom_length, List.length_take, List.length_map]
    split_ifs <;> omega
  simp only [sanitize_display_name]
  cases hb : base.map pyLower with
  | nil => exact key ['a'] (by simp)
  | cons c rest =>
    by_cases hc : pyIsAlphaChar c
    · simp only [if_pos hc]
      exact key (c :: rest) (by simp)
    · simp only [if_neg hc]
      exact key ('a' :: c :: rest) (by simp)

theorem sanitize_display_name_chars (base : List Char) (digs : Nat → Nat) :
    ∀ c ∈ sanitize_display_name base digs, allowedChar c = true := by
  have key : ∀ b2 : List Char,
      ∀ c ∈ padFrom digs ((b2.map (fun ch => if allowedChar ch then ch else '_')).take 16) 0 3,
        allowedChar c = true := by
    intro b2 c hc
    obtain ⟨t, ht, hall⟩ := padFrom_append digs 3 _ 0
    rw [ht] at hc
    rcases List.mem_append.mp hc with hc | hc
    · have hc2 := List.take_subset _ _ hc
      obtain ⟨x, hx, rfl⟩ := List.mem_map.mp hc2
      by_cases hx2 : allowedChar x = true
      · simp [hx2]
      · simp only [Bool.not_eq_true] at hx2
        simp only [hx2, Bool.false_eq_true, if_false]
        decide
    · obtain ⟨x, hx, rfl⟩ := hall c hc
      unfold digitChar
      interval_cases x <;> decide
  simp only [sanitize_display_name]
  cases hb : base.map pyLower with
  | nil => exact key ['a']
  | cons c rest =>
    by_cases hc : pyIsAlphaChar c
    · simp only [if_pos hc]
      exact key (c :: rest)
    · simp only [if_neg hc]
      exact key ('a' :: c :: rest)

theorem generate_password_length (length r1 r2 r3 r4 : Nat) (fill : Nat → Nat)
    (shuffle : List Char → List Char) (hsh : ∀ l, (shuffle l).Perm l) :
    (generate_password length r1 r2 r3 r4 fill shuffle).length = max length 10 := by
  simp only [generate_password]
  rw [(hsh _).length_eq]
  rw [List.length_append, List.length_map, List.length_range]
  simp only [List.length_cons, List.length_nil]
  split_ifs <;> omega

theorem generate_password_classes (length r1 r2 r3 r4 : Nat) (fill : Nat → Nat)
    (shuffle : List Char → List Char) (hsh : ∀ l, (shuffle l).Perm l) :
    (∃ c ∈ generate_password length r1 r2 r3 r4 fill shuffle, c ∈ asciiLowercase) ∧
    (∃ c ∈ generate_password length r1 r2 r3 r4 fill shuffle, c ∈ asciiUppercase) ∧
    (∃ c ∈ generate_password length r1 r2 r3 r4 fill shuffle, c ∈ asciiDigits) ∧
    (∃ c ∈ generate_password length r1 r2 r3 r4 fill shuffle, c ∈ SAFE_PUNCT) := by
  simp only [generate_password]
  have hmem : ∀ (x : Char) (l : List Char), x ∈ l → x ∈ shuffle l :=
    fun x l h => ((hsh l).mem_iff).mpr h
  refine ⟨⟨chooseFrom asciiLowercase r1, hmem _ _ (by simp), chooseFrom_mem _ _ (by decide)⟩,
          ⟨chooseFrom asciiUppercase r2, hmem _ _ (by simp), chooseFrom_mem _ _ (by decide)⟩,
          ⟨chooseFrom asciiDigits r3, hmem _ _ (by simp), chooseFrom_mem _ _ (by decide)⟩,
          ⟨chooseFrom SAFE_PUNCT r4, hmem _ _ (by simp), chooseFrom_mem _ _ (by decide)⟩⟩

theorem splitOnNl_no_nl (a : List Char) (h : '\n' ∉ a) : splitOnNl a = [a] := by
  induction a with
  | nil => rfl
  | cons c r ih =>
    have hc : ¬ (c = '\n') := by
      intro e
      exact h (by simp [e])
    simp only [splitOnNl, if_neg hc]
    rw [ih (by intro hr; exact h (List.mem_cons_of_mem _ hr))]
    rfl

theorem splitOnNl_append (a r : List Char) (h : '\n' ∉ a) :
    splitOnNl (a ++ '\n' :: r) = a :: splitOnNl r := by
  induction a with
  | nil => simp [splitOnNl]
  | cons c a2 ih =>
    have hc : ¬ (c = '\n') := by
      intro e
      exact h (by simp [e])
    simp only [List.cons_append, splitOnNl, if_neg hc, List.append_eq]
    rw [ih (by intro hr; exact h (List.mem_cons_of_mem _ hr))]
    rfl

theorem joinLines_cons2 (l l2 : List Char) (ls : List (List Char)) :
    joinLines (l :: l2 :: ls) = l ++ '\n' :: joinLines (l2 :: ls) := rfl

theorem splitOnNl_joinLines : ∀ ls : List (List Char), ls ≠ [] →
    (∀ l ∈ ls, '\n' ∉ l) → splitOnNl (joinLines ls) = ls := by
  intro ls
  induction ls with
  | nil =>
    intro h
    exact absurd rfl h
  | cons l ls ih =>
    intro _ hall
    rcases ls with _ | ⟨l2, ls2⟩
    · simp only [joinLines]
      exact splitOnNl_no_nl l (hall l (by simp))
    · rw [joinLines_cons2, splitOnNl_append _ _ (hall l (by simp))]
      rw [ih (by simp) (by intro x hx; exact hall x (List.mem_cons_of_mem _ hx))]

/-- C5: is_valid_email first trims surrounding whitespace and then accepts
exactly the strings of the shape non-whitespace-non-at sequence, at-sign,
non-whitespace-non-at sequence, dot, non-whitespace-non-at sequence; in
particular the four example inputs behave as the specification states. -/
theorem C5_email_validator :
    (∀ s : List Char, is_valid_email s = true ↔ emailShape (pyStrip s)) ∧
    is_valid_email ("a@b.c".toList) = true ∧
    is_valid_email ("a b@c.com".toList) = false ∧
    is_valid_email ("noatsign.com".toList) = false ∧
    is_valid_email (" a@b.co ".toList) = true := by
  refine ⟨?_, by decide, by decide, by decide, by decide⟩
  intro s
  unfold is_valid_email
  exact matchesEmailRegex_iff (pyStrip s)

/-- C9: rendering an AccountDetails record to its text block is a pure
function of the record alone: equal records render to byte-identical
blocks. -/
theorem C9_format_deterministic (a b : AccountDetails) (h : a = b) :
    a.to_text_block = b.to_text_block := by
  rw [h]

/-- Witness for C9 at a concrete record. -/
theorem C9_format_deterministic_witness :
    (AccountDetails.mk [] [] [] [] [] [] [] []).to_text_block =
      (AccountDetails.mk [] [] [] [] [] [] [] []).to_text_block :=
  C9_format_deterministic _ _ rfl

/-- C10: generate_account copies its country argument into the record
verbatim, for every string whatsoever, with no membership check against the
fixed country list. -/
theorem C10_country_verbatim (email country : List Char) (t : RandTape)
    (nowY nowMo nowD nowH nowMi nowS : Nat) (rec : AccountDetails)
    (h : generate_account email country t nowY nowMo nowD nowH nowMi nowS = some rec) :
    rec.country = country := by
  simp only [generate_account] at h
  split at h
  · exact absurd h (by simp)
  · obtain rfl : _ = rec := by injection h
    rfl

/-- Witness for C10 at a concrete input whose country is the empty string,
a value outside the fixed six-item list. -/
theorem C10_country_verbatim_witness :
    AccountDetails.country
      { email := "e@f.g".toList, first_name := "Oliver".toList,
        last_name := "Smith".toList, display_name := "oliversmith1000".toList,
        date_str := "01/Jan/1970".toList, password := "aA0!aaaaaaaa".toList,
        country := [], created_at := "0000-00-00T00:00:00".toList } = ([] : List Char) :=
  C10_country_verbatim ("e@f.g".toList) []
    ⟨0, 0, 0, fun _ => 0, 0, 0, fun _ => 0, 1, 0, 0, 0, 0, fun _ => 0, id⟩
    0 0 0 0 0 0 _ (by decide)

/-- C2: for every requested length at least 1 and every draw of the random
tape and permutation-shuffle, the generated password has exactly
max(requested, 10) characters and contains at least one lowercase letter,
one uppercase letter, one digit, and one safe-punctuation character. -/
theorem C2_password_policy (length r1 r2 r3 r4 : Nat) (fill : Nat → Nat)
    (shuffle : List Char → List Char) (_hlen : 1 ≤ length)
    (hsh : ∀ l, (shuffle l).Perm l) :
    (generate_password length r1 r2 r3 r4 fill shuffle).length = max length 10 ∧
    (∃ c ∈ generate_password length r1 r2 r3 r4 fill shuffle, c ∈ asciiLowercase) ∧
    (∃ c ∈ generate_password length r1 r2 r3 r4 fill shuffle, c ∈ asciiUppercase) ∧
    (∃ c ∈ generate_password length r1 r2 r3 r4 fill shuffle, c ∈ asciiDigits) ∧
    (∃ c ∈ generate_password length r1 r2 r3 r4 fill shuffle, c ∈ SAFE_PUNCT) := by
  obtain ⟨c1, c2, c3, c4⟩ := generate_password_classes length r1 r2 r3 r4 fill shuffle hsh
  exact ⟨generate_password_length length r1 r2 r3 r4 fill shuffle hsh, c1, c2, c3, c4⟩

/-- Witness for C2 at the default length 12 with the identity shuffle. -/
theorem C2_password_policy_witness :
    (1 ≤ 12) ∧
    (generate_password 12 0 0 0 0 (fun _ => 0) id).length = max 12 10 ∧
    (∃ c ∈ generate_password 12 0 0 0 0 (fun _ => 0) id, c ∈ asciiLowercase) ∧
    (∃ c ∈ generate_password 12 0 0 0 0 (fun _ => 0) id, c ∈ asciiUppercase) ∧
    (∃ c ∈ generate_password 12 0 0 0 0 (fun _ => 0) id, c ∈ asciiDigits) ∧
    (∃ c ∈ generate_password 12 0 0 0 0 (fun _ => 0) id, c ∈ SAFE_PUNCT) := by
  have h := C2_password_policy 12 0 0 0 0 (fun _ => 0) id (by decide) (fun l => List.Perm.refl l)
  exact ⟨by decide, h.1, h.2.1, h.2.2.1, h.2.2.2.1, h.2.2.2.2⟩

/-- C3: whenever the date generator returns a string for a range with
minYear ≤ maxYear, that string denotes a real calendar date (one the date
constructor accepts) whose year lies in the range, rendered as a zero-padded
two-digit day, a slash, a three-letter month abbreviation, a slash, and the
decimal year. -/
theorem C3_date_in_range_formatted (min_year max_year ry rm : Nat) (ds : Nat → Nat)
    (fuel : Nat) (s : List Char) (hmn : min_year ≤ max_year)
    (h : generate_valid_date min_year max_year ry rm ds fuel = some s) :
    ∃ y m d, pyDateValid y m d ∧ min_year ≤ y ∧ y ≤ max_year ∧
      s = formatDate y m d ∧
      s = padNum 2 d ++ '/' :: (convert_month_number m ++ '/' :: natDigits y) ∧
      (padNum 2 d).length = 2 ∧ (convert_month_number m).length = 3 := by
  obtain ⟨y, m, d, hs, hval, hd1, hd31, hy, hmth⟩ :=
    generate_valid_date_some _ _ _ _ _ _ _ h
  have hrange : ry % (max_year - min_year + 1) < max_year - min_year + 1 :=
    Nat.mod_lt _ (by omega)
  have hval2 := hval
  unfold pyDateValid at hval2
  obtain ⟨-, -, hm1, hm2, -, -⟩ := hval2
  exact ⟨y, m, d, hval, by omega, by omega, hs, hs,
    padNum_two_length d (by omega), convert_month_number_length m hm1 hm2⟩

/-- Witness for C3 at the default configuration with an all-zero tape. -/
theorem C3_date_in_range_formatted_witness :
    ∃ y m d, pyDateValid y m d ∧ 1970 ≤ y ∧ y ≤ 2004 ∧
      "01/Jan/1970".toList = formatDate y m d ∧
      "01/Jan/1970".toList = padNum 2 d ++ '/' :: (convert_month_number m ++ '/' :: natDigits y) ∧
      (padNum 2 d).length = 2 ∧ (convert_month_number m).length = 3 :=
  C3_date_in_range_formatted 1970 2004 0 0 (fun _ => 0) 1 ("01/Jan/1970".toList)
    (by decide) (by decide)

/-- C4 counterexample: minYear = maxYear = 0 satisfies minYear ≤ maxYear and
is accepted by the generator, the drawn year is 0, yet no day candidate in
1..31 forms a valid date (the date constructor rejects year 0), so the
rejection loop never returns: with an all-zero day tape the generator
yields nothing even after 100 tries. -/
theorem C4_zero_year_no_valid_day :
    countValidDays 0 1 = 0 ∧
    findDay 0 1 (fun _ => 0) 0 100 = none ∧
    generate_valid_date 0 0 0 0 (fun _ => 0) 100 = none := by
  exact ⟨by decide, by decide, by decide⟩

/-- C4 amended: for every configuration with 1 ≤ minYear ≤ maxYear ≤ 9999,
every reachable (year, month) pair admits at least 28 valid day candidates
in 1..31 (so in particular at least one), and the rejection loop returns a
valid day as soon as the day tape ever produces a valid candidate. -/
theorem C4_loop_terminates (min_year max_year ry rm : Nat)
    (h1 : 1 ≤ min_year) (h2 : min_year ≤ max_year) (h3 : max_year ≤ 9999) :
    28 ≤ countValidDays (min_year + ry % (max_year - min_year + 1)) (1 + rm % 12) ∧
    (∀ ds : Nat → Nat,
      (∃ j, pyDateValid (min_year + ry % (max_year - min_year + 1)) (1 + rm % 12)
          (1 + ds j % 31)) →
      ∃ fuel d,
        findDay (min_year + ry % (max_year - min_year + 1)) (1 + rm % 12) ds 0 fuel = some d ∧
        pyDateValid (min_year + ry % (max_year - min_year + 1)) (1 + rm % 12) d) := by
  set y := min_year + ry % (max_year - min_year + 1) with hy
  set m := 1 + rm % 12 with hm
  have hyb : 1 ≤ y ∧ y ≤ 9999 := by
    have := Nat.mod_lt ry (show 0 < max_year - min_year + 1 by omega)
    omega
  have hmb : 1 ≤ m ∧ m ≤ 12 := by
    have := Nat.mod_lt rm (show 0 < 12 by omega)
    omega
  constructor
  · rw [countValidDays_eq y m hyb.1 hyb.2 hmb.1 hmb.2]
    exact (daysInMonth_bounds y m).1
  · rintro ds ⟨j, hj⟩
    obtain ⟨d, hd⟩ := findDay_terminates y m ds (j + 1) 0 ⟨j, by omega, by simpa using hj⟩
    have hs := findDay_some y m ds (j + 1) 0 d hd
    exact ⟨j + 1, d, hd, hs.1⟩

/-- Witness for the amended C4 at the default configuration with the
all-zero day tape, whose first draw (day 1) is already valid. -/
theorem C4_loop_terminates_witness :
    28 ≤ countValidDays (1970 + 0 % (2004 - 1970 + 1)) (1 + 0 % 12) ∧
    (∃ fuel d,
      findDay (1970 + 0 % (2004 - 1970 + 1)) (1 + 0 % 12) (fun _ => 0) 0 fuel = some d ∧
      pyDateValid (1970 + 0 % (2004 - 1970 + 1)) (1 + 0 % 12) d) := by
  have h := C4_loop_terminates 1970 2004 0 0 (by decide) (by decide) (by decide)
  exact ⟨h.1, h.2 (fun _ => 0) ⟨0, by decide⟩⟩

/-- C1: evaluation at the failing input.  For the first name consisting of
the single non-ASCII letter E-acute, an empty last name and suffix draw 0
(seed suffix 1000), the lowered seed starts with e-acute, which passes the
isalpha test so no letter a is prepended, and is then replaced by an
underscore: the code returns the display name _1000, which does not match
the policy pattern, contradicting the claim and the docstring of
sanitize_display_name. -/
theorem C1_display_name_first_char_bug :
    generate_display_name ("É".toList) [] 0 (fun _ => 0) = "_1000".toList ∧
    displayNameOk (generate_display_name ("É".toList) [] 0 (fun _ => 0)) = false := by
  exact ⟨by decide, by decide⟩

/-- C7: with the all-zero random-source stub (identity shuffle, date fuel
1, clock at 2020-01-01 00:00:00), generate_account for user@test.com and
Canada returns a record whose country and email fields are exactly the
inputs, whose display name satisfies the policy pattern, whose date of
birth is the valid in-range calendar date 01/Jan/1970, and whose password
has the clamped length 12 with one character of each required class. -/
theorem C7_end_to_end :
    ∃ rec : AccountDetails,
      generate_account ("user@test.com".toList) ("Canada".toList)
        ⟨0, 0, 0, fun _ => 0, 0, 0, fun _ => 0, 1, 0, 0, 0, 0, fun _ => 0, id⟩
        2020 1 1 0 0 0 = some rec ∧
      rec.country = "Canada".toList ∧
      rec.email = "user@test.com".toList ∧
      displayNameOk rec.display_name = true ∧
      rec.date_str = formatDate 1970 1 1 ∧ pyDateValid 1970 1 1 ∧
      DOB_YEAR_MIN ≤ 1970 ∧ 1970 ≤ DOB_YEAR_MAX ∧
      rec.password.length = max PASSWORD_LENGTH 10 ∧
      (∃ c ∈ rec.password, c ∈ asciiLowercase) ∧
      (∃ c ∈ rec.password, c ∈ asciiUppercase) ∧
      (∃ c ∈ rec.password, c ∈ asciiDigits) ∧
      (∃ c ∈ rec.password, c ∈ SAFE_PUNCT) := by
  exact ⟨_, rfl, by decide⟩

/-- C6: provided no field itself contains a newline (as holds for every
generated record), the rendered block splits at newlines into exactly the
eight labelled Key: value lines, in order, followed by the 31-dash
separator line; and a block appended to the log ends with a trailing
newline. -/
theorem C6_block_shape (a : AccountDetails) (f : List Char)
    (h1 : '\n' ∉ a.email) (h2 : '\n' ∉ a.first_name) (h3 : '\n' ∉ a.last_name)
    (h4 : '\n' ∉ a.password) (h5 : '\n' ∉ a.display_name) (h6 : '\n' ∉ a.date_str)
    (h7 : '\n' ∉ a.country) (h8 : '\n' ∉ a.created_at) :
    splitOnNl a.to_text_block =
      ["Email: ".toList ++ a.email,
       "First name: ".toList ++ a.first_name,
       "Last name: ".toList ++ a.last_name,
       "Create password: ".toList ++ a.password,
       "Add a display name: ".toList ++ a.display_name,
       "Date: ".toList ++ a.date_str,
       "Country: ".toList ++ a.country,
       "Created: ".toList ++ a.created_at,
       List.replicate 31 '-'] ∧
    (List.replicate 31 '-').length = 31 ∧
    (append_to_file f a.to_text_block).getLast? = some '\n' := by
  have hap : ∀ p q : List Char, '\n' ∉ p → '\n' ∉ q → '\n' ∉ p ++ q := by
    intro p q hp hq hm
    rcases List.mem_append.mp hm with hx | hx
    exacts [hp hx, hq hx]
  refine ⟨?_, by decide, ?_⟩
  · unfold AccountDetails.to_text_block
    apply splitOnNl_joinLines
    · simp
    · intro l hl
      simp only [List.mem_cons, List.not_mem_nil, or_false] at hl
      rcases hl with rfl | rfl | rfl | rfl | rfl | rfl | rfl | rfl | rfl
      · exact hap _ _ (by decide) h1
      · exact hap _ _ (by decide) h2
      · exact hap _ _ (by decide) h3
      · exact hap _ _ (by decide) h4
      · exact hap _ _ (by decide) h5
      · exact hap _ _ (by decide) h6
      · exact hap _ _ (by decide) h7
      · exact hap _ _ (by decide) h8
      · intro hm
        exact absurd (List.eq_of_mem_replicate hm) (by decide)
  · unfold append_to_file
    rw [List.getLast?_concat]

/-- Witness for C6 at a concrete one-character record and an empty log. -/
theorem C6_block_shape_witness :
    ('\n' ∉ (['x'] : List Char)) ∧
    splitOnNl (AccountDetails.mk ['x'] ['x'] ['x'] ['x'] ['x'] ['x'] ['x'] ['x']).to_text_block =
      ["Email: ".toList ++ ['x'],
       "First name: ".toList ++ ['x'],
       "Last name: ".toList ++ ['x'],
       "Create password: ".toList ++ ['x'],
       "Add a display name: ".toList ++ ['x'],
       "Date: ".toList ++ ['x'],
       "Country: ".toList ++ ['x'],
       "Created: ".toList ++ ['x'],
       List.replicate 31 '-'] ∧
    (List.replicate 31 '-').length = 31 ∧
    (append_to_file [] (AccountDetails.mk ['x'] ['x'] ['x'] ['x'] ['x'] ['x'] ['x'] ['x']).to_text_block).getLast? = some '\n' := by
  have h := C6_block_shape (AccountDetails.mk ['x'] ['x'] ['x'] ['x'] ['x'] ['x'] ['x'] ['x']) []
    (by decide) (by decide) (by decide) (by decide) (by decide) (by decide) (by decide) (by decide)
  exact ⟨by decide, h.1, h.2.1, h.2.2⟩

/-- C8: for a validated email and a country drawn from the fixed list,
every one of the eight fields of a record produced by generate_account is a
non-empty string (under any random tape whose shuffle permutes its input). -/
theorem C8_fields_nonempty (email country : List Char) (t : RandTape)
    (nowY nowMo nowD nowH nowMi nowS : Nat) (rec : AccountDetails)
    (hev : is_valid_email email = true)
    (hc : country ∈ ENGLISH_COUNTRIES)
    (hsh : ∀ l, (t.shuffle l).Perm l)
    (h : generate_account email country t nowY nowMo nowD nowH nowMi nowS = some rec) :
    rec.email ≠ [] ∧ rec.first_name ≠ [] ∧ rec.last_name ≠ [] ∧
    rec.display_name ≠ [] ∧ rec.date_str ≠ [] ∧ rec.password ≠ [] ∧
    rec.country ≠ [] ∧ rec.created_at ≠ [] := by
  simp only [generate_account] at h
  split at h
  · exact absurd h (by simp)
  · rename_i dob hdob
    obtain rfl : _ = rec := by injection h
    refine ⟨?_, ?_, ?_, ?_, ?_, ?_, ?_, ?_⟩
    · show pyStrip email ≠ []
      intro hnil
      unfold is_valid_email at hev
      rw [hnil] at hev
      exact absurd hev (by decide)
    · show chooseFromL FIRST_NAMES t.nameFirst ≠ []
      have hmem := chooseFromL_mem FIRST_NAMES t.nameFirst (by decide)
      have hne : ∀ x ∈ FIRST_NAMES, x ≠ [] := by decide
      exact hne _ hmem
    · show chooseFromL LAST_NAMES t.nameLast ≠ []
      have hmem := chooseFromL_mem LAST_NAMES t.nameLast (by decide)
      have hne : ∀ x ∈ LAST_NAMES, x ≠ [] := by decide
      exact hne _ hmem
    · show generate_display_name (chooseFromL FIRST_NAMES t.nameFirst)
        (chooseFromL LAST_NAMES t.nameLast) t.sfx t.digs ≠ []
      have h3 := (sanitize_display_name_length
        (chooseFromL FIRST_NAMES t.nameFirst ++ chooseFromL LAST_NAMES t.nameLast ++
          natDigits (t.sfx % 9000 + 1000)) t.digs).1
      intro hnil
      simp only [generate_display_name] at hnil
      rw [hnil] at h3
      simp at h3
    · show dob ≠ []
      obtain ⟨y, m, d, rfl, -, -, -, -, -⟩ :=
        generate_valid_date_some _ _ _ _ _ _ _ hdob
      simp [formatDate]
    · show generate_password PASSWORD_LENGTH t.pw1 t.pw2 t.pw3 t.pw4 t.fill t.shuffle ≠ []
      have hlen := generate_password_length PASSWORD_LENGTH t.pw1 t.pw2 t.pw3 t.pw4 t.fill
        t.shuffle hsh
      intro hnil
      rw [hnil] at hlen
      simp [PASSWORD_LENGTH] at hlen
    · show country ≠ []
      have hne : ∀ x ∈ ENGLISH_COUNTRIES, x ≠ [] := by decide
      exact hne _ hc
    · show isoTimestamp nowY nowMo nowD nowH nowMi nowS ≠ []
      simp [isoTimestamp]

/-- Witness for C8 at a concrete validated email, the country Canada, and
the all-zero stub tape. -/
theorem C8_fields_nonempty_witness :
    (is_valid_email ("user@test.com".toList) = true) ∧
    let rec0 : AccountDetails :=
      { email := "user@test.com".toList, first_name := "Oliver".toList,
        last_name := "Smith".toList, display_name := "oliversmith1000".toList,
        date_str := "01/Jan/1970".toList, password := "aA0!aaaaaaaa".toList,
        country := "Canada".toList, created_at := "2020-01-01T00:00:00".toList }
    rec0.email ≠ [] ∧ rec0.first_name ≠ [] ∧ rec0.last_name ≠ [] ∧
    rec0.display_name ≠ [] ∧ rec0.date_str ≠ [] ∧ rec0.password ≠ [] ∧
    rec0.country ≠ [] ∧ rec0.created_at ≠ [] := by
  refine ⟨by decide, ?_⟩
  exact C8_fields_nonempty ("user@test.com".toList) ("Canada".toList)
    ⟨0, 0, 0, fun _ => 0, 0, 0, fun _ => 0, 1, 0, 0, 0, 0, fun _ => 0, id⟩
    2020 1 1 0 0 0 _ (by decide) (by decide) (fun l => List.Perm.refl l) (by decide)
